import Mathlib

/-!
Shallow embedding of the core of `endless-ssh-rs` (an SSH tarpit), verified
against its natural-language specification.

The repository contains several historical variants of each component; the
embedding below follows the files the claims point at:
  * `src/line.rs` (`randline`) and `back-end/src/line.rs` (`randline_from`)
    for the banner-line generator;
  * `src/sender.rs` (`sendline`) for the per-tick write;
  * `src/client_queue.rs` (`ClientQueue::process_queue`) for the single-task
    priority-queue scheduler;
  * `src/statistics.rs` for the statistics aggregator;
  * `crates/endless-ssh-rs/src/listener.rs` (`Listener::accept`) for the
    accept loop;
  * `src/timeout.rs` (`Timeout::as_c_timeout`) for the poll timeout.

Randomness is embedded as an oracle stream `rs : Nat → Nat`; the rand crate's
`gen_range(lo..=hi)` contract (result always inside the inclusive range) is
embedded as `lo + r % (hi + 1 - lo)`.  I/O outcomes (write results, accept
results, permit acquisition) are likewise inputs to the embedded functions.
Timestamps (`OffsetDateTime`) and durations (`time::Duration`) are embedded
as `Int` (an absolute instant, resp. a signed duration); `std::time::Duration`
(always non-negative) is embedded as `Nat`.
-/

namespace EndlessSsh

/-- `rand::thread_rng().gen_range(lo..=hi)` for a non-empty integer range:
the draw `r` is reduced into the inclusive range `[lo, hi]`.  Every value of
the range is reachable and, for `lo ≤ hi`, the result always lies inside it. -/
def rand_in_range (lo hi r : Nat) : Nat :=
  lo + r % (hi + 1 - lo)

/-! ## Line generator — `src/line.rs::randline`, `back-end/src/line.rs::randline_from`

The generator first draws `len ∈ [3, maxlen]` (draw 0 of the oracle), fills
bytes `0 .. len-3` with printable ASCII draws (draws 1, 2, …), writes the CR LF
terminator at positions `len-2` and `len-1`, and finally guards against the
`"SSH-"` prefix. -/

/-- The line length drawn by `randline`: `let len = rand::rand_in_range(3..=maxlen)`. -/
def lineLen (rs : Nat → Nat) (maxlen : Nat) : Nat :=
  rand_in_range 3 maxlen (rs 0)

/-- The `len - 2` random printable bytes: the loop
`for l in buffer.iter_mut().take(len - 2) { *l = rand::rand_in_range(32..=126) }`,
byte `i` consuming draw `i + 1` of the oracle. -/
def lineBody (rs : Nat → Nat) (maxlen : Nat) : List Nat :=
  (List.range (lineLen rs maxlen - 2)).map (fun i => rand_in_range 32 126 (rs (i + 1)))

/-- The buffer before the `"SSH-"` guard: `len - 2` printable random bytes
followed by `13, 10` (`buffer[len - 2] = 13; buffer[len - 1] = 10`). -/
def randlineRaw (rs : Nat → Nat) (maxlen : Nat) : List Nat :=
  lineBody rs maxlen ++ [13, 10]

/-- The four bytes `b"SSH-"`. -/
def sshBytes : List Nat := [83, 83, 72, 45]

/-- `src/line.rs::randline`: the raw buffer, with byte 0 overwritten by `b'X'`
(88) when `len > 3 && buffer[0..4] == *b"SSH-"`. -/
def randline (rs : Nat → Nat) (maxlen : Nat) : List Nat :=
  if 3 < lineLen rs maxlen ∧ (randlineRaw rs maxlen).take 4 = sshBytes then
    (randlineRaw rs maxlen).set 0 88
  else
    randlineRaw rs maxlen

/-- `back-end/src/line.rs::randline_from`: identical construction, but the
guard is `buffer.starts_with(b"SSH-")` (no separate `len > 3` test); a prefix
test against a buffer shorter than four bytes is simply false, which
`List.take 4 · = sshBytes` models exactly. -/
def randline_from (rs : Nat → Nat) (maxlen : Nat) : List Nat :=
  if (randlineRaw rs maxlen).take 4 = sshBytes then
    (randlineRaw rs maxlen).set 0 88
  else
    randlineRaw rs maxlen

/-! ## Write errors and `src/sender.rs::sendline`

`sendline` generates one line and writes it whole (`write_all`).  The outcome
of the underlying write is an input of the embedding: `none` models a
successful `write_all`, `some e` a write error of kind `e`. -/

/-- The `std::io::ErrorKind` values `sendline` distinguishes. -/
inductive ErrorKind where
  | wouldBlock
  | connectionReset
  | timedOut
  | brokenPipe
  | notConnected
  | otherKind
deriving DecidableEq, Repr

/-- `src/sender.rs::sendline`: on a successful `write_all` return
`Ok(bytes.len())`; on `WouldBlock` return `Ok(0)` (client kept, nothing
counted); on any other error return `Err(())`. -/
def sendline (rs : Nat → Nat) (max_length : Nat) (writeError : Option ErrorKind) :
    Except Unit Nat :=
  match writeError with
  | none => .ok (randline rs max_length).length
  | some ErrorKind.wouldBlock => .ok 0
  | some _ => .error ()

/-! ## Clients, configuration and `src/client_queue.rs::ClientQueue::process_queue`

`ClientQueue` wraps a `BinaryHeap<Client<S>>`; `Client`'s ordering (defined in
the variant's `client.rs`, a file not present in the snapshot) makes the heap
a min-heap keyed on `send_next`, as the specification states.  The heap is
embedded as a plain list together with `popMin`, which extracts a client with
the smallest `send_next` (`BinaryHeap::peek_mut` / `PeekMut::pop`). -/

/-- One client record of the queue variant: peer address, next-send instant,
and the running byte / time accounting.  The TCP stream itself is embedded by
the write-outcome oracle fed to `processQueue`. -/
structure Client where
  addr : Nat
  send_next : Int
  bytes_sent : Nat
  time_spent : Int
deriving DecidableEq, Repr

/-- The configuration fields (`src/config.rs`) used by the scheduler: the
inter-line delay (a positive duration) and the maximum line length. -/
structure Config where
  port : Nat
  delay : Int
  max_line_length : Nat
  max_clients : Nat
deriving DecidableEq, Repr

/-- Modelled from the spec: `Client`'s `Ord` instance (the variant's
`client.rs` is not in the snapshot) must make `BinaryHeap` "a min-heap of
clients keyed by `send_next`".  `popMin` returns a client with the smallest
`send_next` (the leftmost such, ties broken arbitrarily by the heap) and the
remaining queue. -/
def popMin : List Client → Option (Client × List Client)
  | [] => none
  | c :: cs =>
    match popMin cs with
    | none => some (c, [])
    | some (m, rest) =>
      if c.send_next ≤ m.send_next then some (c, cs) else some (m, c :: rest)

/-- Drops the first entry of an oracle stream (used when recursing past one
serviced client). -/
def shiftStream {α : Type} (f : Nat → α) : Nat → α :=
  fun i => f (i + 1)

/-- The result of `process_queue` (`QueueProcessingResult`), extended with two
observations: the final queue, and the `serviced` trace listing, in order, the
snapshot of every client that was written to.  `bytes_sent` / `time_spent`
accumulate the totals of disconnected clients, exactly as in the source. -/
structure QueueResult where
  timeout : Option Int
  bytes_sent : Nat
  time_spent : Int
  serviced : List Client
  queue : List Client
deriving DecidableEq, Repr

/-- The successful-write update of the due client `c`:
`client.bytes_sent += bytes_sent; client.time_spent += config.delay;
client.send_next = now + config.delay` (note: `now + delay`, not
`send_next + delay`). -/
def serviceOk (cfg : Config) (now : Int) (n : Nat) (c : Client) : Client :=
  { c with
      bytes_sent := c.bytes_sent + n
      time_spent := c.time_spent + cfg.delay
      send_next := now + cfg.delay }

/-- Records in the trace that client `c` was written to. -/
def tagServiced (c : Client) (r : QueueResult) : QueueResult :=
  { r with serviced := c :: r.serviced }

/-- Records that client `c` was dropped after a failed write, folding its
totals into `disconnected_clients_bytes_sent` / `…_time_spent`. -/
def tagLost (c : Client) (r : QueueResult) : QueueResult :=
  { r with
      bytes_sent := c.bytes_sent + r.bytes_sent
      time_spent := c.time_spent + r.time_spent
      serviced := c :: r.serviced }

/-- The `while let Some(mut client) = self.clients.peek_mut()` loop of
`process_queue`, with explicit fuel (the loop terminates because every due
client is either dropped or re-armed to `now + delay > now`; the wrapper
passes enough fuel for that).  Step `k` of the loop consumes entry `0` of the
current oracle streams.

* due head, successful or would-block write (`Ok(bytes_sent)`): the client is
  credited via `serviceOk` (re-armed to `now + delay`) and kept;
* due head, failed write: the client is popped and its totals accumulated;
* head not due: the loop stops and the timeout is `client.send_next - now`. -/
def processQueueAux (cfg : Config) (now : Int) (send : Nat → Option ErrorKind)
    (rngs : Nat → Nat → Nat) : Nat → List Client → QueueResult
  | 0, q => ⟨none, 0, 0, [], q⟩
  | fuel + 1, q =>
    match popMin q with
    | none => ⟨none, 0, 0, [], []⟩
    | some (c, rest) =>
      if c.send_next ≤ now then
        match sendline (rngs 0) cfg.max_line_length (send 0) with
        | .ok n =>
          tagServiced c (processQueueAux cfg now (shiftStream send) (shiftStream rngs)
            fuel (serviceOk cfg now n c :: rest))
        | .error _ =>
          tagLost c (processQueueAux cfg now (shiftStream send) (shiftStream rngs)
            fuel rest)
      else
        ⟨some (c.send_next - now), 0, 0, [], q⟩

/-- `src/client_queue.rs::ClientQueue::process_queue` at instant `now`.
`q.length + 1` fuel suffices: at most one iteration per initially-due client,
plus the final peek that either empties the queue or sets the timeout. -/
def processQueue (cfg : Config) (now : Int) (send : Nat → Option ErrorKind)
    (rngs : Nat → Nat → Nat) (q : List Client) : QueueResult :=
  processQueueAux cfg now send rngs (q.length + 1) q

/-- Number of clients already due at instant `now`. -/
def countDue (now : Int) (q : List Client) : Nat :=
  q.countP (fun c => decide (c.send_next ≤ now))

/-! ## Statistics — `src/statistics.rs` -/

/-- The five counters of `Statistics`.  `time_spent` is a `time::Duration`
(signed); all other fields are unsigned. -/
structure Statistics where
  bytes_sent : Nat
  connects : Nat
  lost_clients : Nat
  processed_clients : Nat
  time_spent : Int
deriving DecidableEq, Repr

/-- `StatisticsMessage`; `BytesSent` carries a `usize`, `TimeSpent` a
`std::time::Duration` (never negative, hence `Nat`). -/
inductive StatisticsMessage where
  | processedClient
  | lostClient
  | bytesSent (n : Nat)
  | timeSpent (d : Nat)
  | newClient
  | logTotals
deriving DecidableEq, Repr

/-- The aggregator's `match message` arm in `Statistics::new`: each message
bumps exactly one counter; `LogTotals` only logs (`log_totals(&self)` takes a
shared reference and mutates nothing). -/
def applyMessage (s : Statistics) : StatisticsMessage → Statistics
  | .processedClient => { s with processed_clients := s.processed_clients + 1 }
  | .lostClient => { s with lost_clients := s.lost_clients + 1 }
  | .bytesSent n => { s with bytes_sent := s.bytes_sent + n }
  | .timeSpent d => { s with time_spent := s.time_spent + d }
  | .newClient => { s with connects := s.connects + 1 }
  | .logTotals => s

/-! ## Accept loop — `crates/endless-ssh-rs/src/listener.rs::Listener::accept`

One call of `Listener::accept` is embedded as a function of its three I/O
outcomes: the result of `TcpListener::accept`, whether
`set_receive_buffer_size` succeeded, and the result of
`Semaphore::try_acquire_owned` (plus whether the handoff-channel send
succeeded).  The returned record collects the externally visible effects. -/

/-- Accept errors distinguished by the `error.raw_os_error()` match. -/
inductive AcceptError where
  | emfile
  | enfile
  | econnaborted
  | eintr
  | enobufs
  | enomem
  | eproto
  | otherOsError
deriving DecidableEq, Repr

/-- The errnos the source treats as non-fatal (log and keep accepting). -/
def transientError : AcceptError → Bool
  | .emfile => true
  | .enfile => true
  | .econnaborted => true
  | .eintr => true
  | .enobufs => true
  | .enomem => true
  | .eproto => true
  | .otherOsError => false

/-- Result of `semaphore.try_acquire_owned()`. -/
inductive AcquireResult where
  | acquired
  | noPermits
  | closed
deriving DecidableEq, Repr

/-- Observable effects of one `Listener::accept` call.  `newClientSent` is
true when `StatisticsMessage::NewClient` (a `connects` increment) was sent;
`warnedFullAddr` holds the peer address logged at WARN when the gate was
full; `isErr` is true when the call returned `Err`, which makes the accept
loop in `listen_for_new_connections` break. -/
structure AcceptEffects where
  newClientSent : Bool
  permitAcquired : Bool
  clientEnqueued : Bool
  warnedFullAddr : Option Nat
  isErr : Bool
deriving DecidableEq, Repr

/-- `Listener::accept`: the `NewClient` statistics message is sent right
after `self.listener.accept().await` returns, before the result is even
inspected; then the `Ok` path tunes the socket (discarding the connection on
failure, without touching the semaphore), tries the admission gate, and the
`Err` path classifies the errno. -/
def listenerAccept (acceptResult : Except AcceptError Nat) (tuneOk : Bool)
    (acquire : AcquireResult) (enqueueOk : Bool) : AcceptEffects :=
  match acceptResult with
  | .ok addr =>
    if tuneOk then
      match acquire with
      | .acquired =>
        if enqueueOk then
          ⟨true, true, true, none, false⟩
        else
          -- `client_sender.send(client)?`: a closed handoff channel is fatal
          ⟨true, true, false, none, true⟩
      | .noPermits => ⟨true, false, false, some addr, false⟩
      | .closed => ⟨true, false, false, none, true⟩
    else
      ⟨true, false, false, none, false⟩
  | .error e =>
    if transientError e then
      ⟨true, false, false, none, false⟩
    else
      ⟨true, false, false, none, true⟩

/-! ## Poll timeout — `src/timeout.rs::Timeout` -/

/-- `Timeout`: either infinite (no clients queued) or a `time::Duration`,
embedded as a signed count of nanoseconds. -/
inductive Timeout where
  | infinite
  | duration (d : Int)
deriving DecidableEq, Repr

/-- `time::Duration::whole_milliseconds` (an `i128`): nanoseconds divided by
10^6, truncated toward zero, which is Rust's (and `Int.div`'s) semantics. -/
def wholeMilliseconds (d : Int) : Int :=
  Int.tdiv d 1000000

/-- `Timeout::as_c_timeout`:
`Infinite => -1`, and
`Duration(m) => i32::try_from(m.whole_milliseconds() + 1).unwrap_or(i32::MAX)`
(the `+ 1` guards against losing a sub-millisecond remainder; `try_from`
fails outside `[i32::MIN, i32::MAX]` and then `i32::MAX` is used). -/
def as_c_timeout : Timeout → Int
  | .infinite => -1
  | .duration m =>
    if -2147483648 ≤ wholeMilliseconds m + 1 ∧ wholeMilliseconds m + 1 ≤ 2147483647 then
      wholeMilliseconds m + 1
    else
      2147483647

/-- `impl From<Option<Duration>> for Timeout`. -/
def timeoutFrom : Option Int → Timeout
  | none => .infinite
  | some d => .duration d

/-! Helper lemmas about the generator. -/

theorem rand_in_range_lower (lo hi r : Nat) : lo ≤ rand_in_range lo hi r :=
  Nat.le_add_right lo _

theorem rand_in_range_upper (lo hi r : Nat) (h : lo ≤ hi) :
    rand_in_range lo hi r ≤ hi := by
  unfold rand_in_range
  have hpos : 0 < hi + 1 - lo := by omega
  have := Nat.mod_lt r hpos
  omega

theorem rand_in_range_reaches (lo hi n : Nat) (h1 : lo ≤ n) (h2 : n ≤ hi) :
    rand_in_range lo hi (n - lo) = n := by
  unfold rand_in_range
  have : n - lo < hi + 1 - lo := by omega
  rw [Nat.mod_eq_of_lt this]
  omega

theorem lineLen_ge (rs : Nat → Nat) (maxlen : Nat) : 3 ≤ lineLen rs maxlen :=
  rand_in_range_lower 3 maxlen (rs 0)

theorem lineLen_le (rs : Nat → Nat) (maxlen : Nat) (h : 3 ≤ maxlen) :
    lineLen rs maxlen ≤ maxlen :=
  rand_in_range_upper 3 maxlen (rs 0) h

theorem randlineRaw_length (rs : Nat → Nat) (maxlen : Nat) :
    (randlineRaw rs maxlen).length = lineLen rs maxlen - 2 + 2 := by
  simp [randlineRaw, lineBody]

theorem randlineRaw_length_eq (rs : Nat → Nat) (maxlen : Nat) :
    (randlineRaw rs maxlen).length = lineLen rs maxlen := by
  have h3 := lineLen_ge rs maxlen
  rw [randlineRaw_length]
  omega

theorem randline_length (rs : Nat → Nat) (maxlen : Nat) :
    (randline rs maxlen).length = lineLen rs maxlen := by
  unfold randline
  split
  · rw [List.length_set, randlineRaw_length_eq]
  · exact randlineRaw_length_eq rs maxlen

/-- Dropping all but the last two elements of `l ++ [13, 10]` leaves CR LF. -/
theorem append_crlf_drop (l : List Nat) :
    (l ++ [13, 10]).drop ((l ++ [13, 10]).length - 2) = [13, 10] := by
  have h : (l ++ ([13, 10] : List Nat)).length - 2 = l.length := by simp
  rw [h]
  exact List.drop_left l [13, 10]

/-- Taking all but the last two elements of `l ++ [13, 10]` gives back `l`. -/
theorem append_crlf_take (l : List Nat) :
    (l ++ [13, 10]).take ((l ++ [13, 10]).length - 2) = l := by
  have h : (l ++ ([13, 10] : List Nat)).length - 2 = l.length := by simp
  rw [h]
  exact List.take_left l [13, 10]

/-- The last two bytes of the raw buffer are CR LF. -/
theorem randlineRaw_terminator (rs : Nat → Nat) (maxlen : Nat) :
    (randlineRaw rs maxlen).drop ((randlineRaw rs maxlen).length - 2) = [13, 10] :=
  append_crlf_drop _

/-- Every byte of the random body is printable ASCII. -/
theorem randlineRaw_body_printable (rs : Nat → Nat) (maxlen : Nat) :
    ∀ b ∈ (randlineRaw rs maxlen).take ((randlineRaw rs maxlen).length - 2),
      32 ≤ b ∧ b ≤ 126 := by
  intro b hb
  rw [randlineRaw, append_crlf_take, lineBody] at hb
  rcases List.mem_map.mp hb with ⟨i, _, rfl⟩
  exact ⟨rand_in_range_lower 32 126 _, rand_in_range_upper 32 126 _ (by omega)⟩

theorem lineBody_length (rs : Nat → Nat) (maxlen : Nat) :
    (lineBody rs maxlen).length = lineLen rs maxlen - 2 := by
  simp [lineBody]

theorem lineBody_printable (rs : Nat → Nat) (maxlen : Nat) :
    ∀ b ∈ lineBody rs maxlen, 32 ≤ b ∧ b ≤ 126 := by
  intro b hb
  rw [lineBody] at hb
  rcases List.mem_map.mp hb with ⟨i, _, rfl⟩
  exact ⟨rand_in_range_lower 32 126 _, rand_in_range_upper 32 126 _ (by omega)⟩

/-- A buffer whose first four bytes read `"SSH-"` is at least four bytes
long, so the drawn length exceeded 3. -/
theorem ssh_take_imp (rs : Nat → Nat) (maxlen : Nat)
    (h : (randlineRaw rs maxlen).take 4 = sshBytes) : 3 < lineLen rs maxlen := by
  have hl := congrArg List.length h
  rw [List.length_take, randlineRaw_length_eq] at hl
  have hs : sshBytes.length = 4 := rfl
  rw [hs] at hl
  omega

/-- Setting byte 0 of a buffer whose four-byte prefix is `"SSH-"` to `'X'`
yields the four-byte prefix `"XSH-"`. -/
theorem set_after_ssh_take (l : List Nat) (h : l.take 4 = sshBytes) :
    (l.set 0 88).take 4 = [88, 83, 72, 45] := by
  have hl : l = sshBytes ++ l.drop 4 := by
    conv_lhs => rw [← List.take_append_drop 4 l, h]
  rw [hl, List.set_append_left _ _ (by simp [sshBytes])]
  have hset : sshBytes.set 0 88 = [88, 83, 72, 45] := rfl
  rw [hset]
  have h4 : ([88, 83, 72, 45] : List Nat).length = 4 := rfl
  rw [← h4, List.take_left]

theorem head_of_set_zero (l : List Nat) (hl : l ≠ []) : (l.set 0 88).head? = some 88 := by
  cases l with
  | nil => exact absurd rfl hl
  | cons a t => rfl

theorem randlineRaw_ne_nil (rs : Nat → Nat) (maxlen : Nat) : randlineRaw rs maxlen ≠ [] := by
  apply List.ne_nil_of_length_pos
  rw [randlineRaw_length_eq]
  have := lineLen_ge rs maxlen
  omega

/-- The generated line always ends in CR LF. -/
theorem randline_terminator (rs : Nat → Nat) (maxlen : Nat) :
    (randline rs maxlen).drop ((randline rs maxlen).length - 2) = [13, 10] := by
  unfold randline
  split
  case isTrue h =>
    have hbl : 0 < (lineBody rs maxlen).length := by
      rw [lineBody_length]
      have := h.1
      omega
    rw [randlineRaw, List.set_append_left _ _ hbl]
    exact append_crlf_drop _
  case isFalse _ => exact randlineRaw_terminator rs maxlen

/-- Every byte before the terminator is printable ASCII. -/
theorem randline_printable (rs : Nat → Nat) (maxlen : Nat) :
    ∀ b ∈ (randline rs maxlen).take ((randline rs maxlen).length - 2),
      32 ≤ b ∧ b ≤ 126 := by
  unfold randline
  split
  case isTrue h =>
    have hbl : 0 < (lineBody rs maxlen).length := by
      rw [lineBody_length]
      have := h.1
      omega
    rw [randlineRaw, List.set_append_left _ _ hbl, append_crlf_take]
    intro b hb
    rcases List.mem_or_eq_of_mem_set hb with hmem | rfl
    · exact lineBody_printable rs maxlen b hmem
    · exact ⟨by norm_num, by norm_num⟩
  case isFalse _ => exact randlineRaw_body_printable rs maxlen

/-- The generated line never begins with `"SSH-"`. -/
theorem randline_take_ne_ssh (rs : Nat → Nat) (maxlen : Nat) :
    (randline rs maxlen).take 4 ≠ sshBytes := by
  unfold randline
  split
  case isTrue h =>
    rw [set_after_ssh_take _ h.2]
    intro hcontra
    exact absurd (congrArg (fun l => l.head?) hcontra) (by simp [sshBytes])
  case isFalse h =>
    intro hcontra
    exact h ⟨ssh_take_imp rs maxlen hcontra, hcontra⟩

/-- Both historical variants of the generator produce the same line: the
`starts_with` guard of `randline_from` can only fire when the drawn length
exceeds 3, which is exactly the extra conjunct `randline` checks. -/
theorem randline_from_eq_randline (rs : Nat → Nat) (maxlen : Nat) :
    randline_from rs maxlen = randline rs maxlen := by
  unfold randline randline_from
  by_cases h : (randlineRaw rs maxlen).take 4 = sshBytes
  · rw [if_pos h, if_pos ⟨ssh_take_imp rs maxlen h, h⟩]
  · rw [if_neg h, if_neg (fun hc => h hc.2)]

/-- C1: for every `max_len` with `3 ≤ max_len ≤ 255` (and every random
stream), the generated line has length in `[3, max_len]`, every length in
that range is reachable by some draw, the last two bytes are CR LF, and every
byte before the terminator is printable ASCII (`[32, 126]`). -/
theorem c1_line_generator_shape (rs : Nat → Nat) (maxlen : Nat)
    (h3 : 3 ≤ maxlen) (h255 : maxlen ≤ 255) :
    3 ≤ (randline rs maxlen).length ∧
    (randline rs maxlen).length ≤ maxlen ∧
    (randline rs maxlen).drop ((randline rs maxlen).length - 2) = [13, 10] ∧
    (∀ b ∈ (randline rs maxlen).take ((randline rs maxlen).length - 2),
      32 ≤ b ∧ b ≤ 126) ∧
    (∀ n, 3 ≤ n → n ≤ maxlen → ∃ r, rand_in_range 3 maxlen r = n) := by
  refine ⟨?_, ?_, randline_terminator rs maxlen, randline_printable rs maxlen, ?_⟩
  · rw [randline_length]
    exact lineLen_ge rs maxlen
  · rw [randline_length]
    exact lineLen_le rs maxlen h3
  · intro n hn1 hn2
    exact ⟨n - 3, rand_in_range_reaches 3 maxlen n hn1 hn2⟩

/-- C1 witness: the guarantees of `c1_line_generator_shape` at the default
`max_line_length = 32` and the all-zero random stream. -/
theorem c1_line_generator_shape_witness :
    3 ≤ (randline (fun _ => 0) 32).length ∧
    (randline (fun _ => 0) 32).length ≤ 32 ∧
    (randline (fun _ => 0) 32).drop ((randline (fun _ => 0) 32).length - 2) = [13, 10] ∧
    (∀ b ∈ (randline (fun _ => 0) 32).take ((randline (fun _ => 0) 32).length - 2),
      32 ≤ b ∧ b ≤ 126) ∧
    (∀ n, 3 ≤ n → n ≤ 32 → ∃ r, rand_in_range 3 32 r = n) :=
  c1_line_generator_shape (fun _ => 0) 32 (by decide) (by decide)

/-- C2: the generated line never begins with the four bytes `"SSH-"`
(in either variant of the generator, which agree); whenever the randomly
drawn prefix would be exactly `"SSH-"`, byte 0 of the line is overwritten
with `'X'` (88) before the line is returned. -/
theorem c2_no_ssh_prefix (rs : Nat → Nat) (maxlen : Nat)
    (h3 : 3 ≤ maxlen) (h255 : maxlen ≤ 255) :
    (randline rs maxlen).take 4 ≠ sshBytes ∧
    randline_from rs maxlen = randline rs maxlen ∧
    ((randlineRaw rs maxlen).take 4 = sshBytes →
      randline rs maxlen = (randlineRaw rs maxlen).set 0 88 ∧
      (randline rs maxlen).head? = some 88) := by
  refine ⟨randline_take_ne_ssh rs maxlen, randline_from_eq_randline rs maxlen, ?_⟩
  intro hssh
  have hguard : 3 < lineLen rs maxlen ∧ (randlineRaw rs maxlen).take 4 = sshBytes :=
    ⟨ssh_take_imp rs maxlen hssh, hssh⟩
  constructor
  · unfold randline
    rw [if_pos hguard]
  · unfold randline
    rw [if_pos hguard]
    exact head_of_set_zero _ (randlineRaw_ne_nil rs maxlen)

/-- C2 witness: a random stream forced to draw length 6 and the bytes
`S S H -` (the spec's end-to-end scenario 6) produces `X S H - \r \n`, and
the guarantees of `c2_no_ssh_prefix` hold there. -/
theorem c2_no_ssh_prefix_witness :
    randline (fun i => [3, 51, 51, 40, 13].getD i 0) 6 = [88, 83, 72, 45, 13, 10] ∧
    ((randline (fun i => [3, 51, 51, 40, 13].getD i 0) 6).take 4 ≠ sshBytes ∧
      randline_from (fun i => [3, 51, 51, 40, 13].getD i 0) 6 =
        randline (fun i => [3, 51, 51, 40, 13].getD i 0) 6 ∧
      ((randlineRaw (fun i => [3, 51, 51, 40, 13].getD i 0) 6).take 4 = sshBytes →
        randline (fun i => [3, 51, 51, 40, 13].getD i 0) 6 =
          (randlineRaw (fun i => [3, 51, 51, 40, 13].getD i 0) 6).set 0 88 ∧
        (randline (fun i => [3, 51, 51, 40, 13].getD i 0) 6).head? = some 88)) :=
  ⟨by decide, c2_no_ssh_prefix (fun i => [3, 51, 51, 40, 13].getD i 0) 6 (by decide) (by decide)⟩

/-- C9: `randline 3` is exactly one printable byte followed by CR LF; for
every `max_len ≥ 3` the drawn length stays in `[3, max_len]`, `len - 2` does
not underflow (`len - 2 + 2 = len`), the buffer has exactly `len` bytes, and
the `"SSH-"` comparison can only run (`3 < len`) when the buffer holds at
least four bytes. -/
theorem c9_minimal_length_safety (rs : Nat → Nat) (maxlen : Nat) (h3 : 3 ≤ maxlen) :
    (∃ b, randline rs 3 = [b, 13, 10] ∧ 32 ≤ b ∧ b ≤ 126) ∧
    3 ≤ lineLen rs maxlen ∧
    lineLen rs maxlen ≤ maxlen ∧
    lineLen rs maxlen - 2 + 2 = lineLen rs maxlen ∧
    (randlineRaw rs maxlen).length = lineLen rs maxlen ∧
    (3 < lineLen rs maxlen → 4 ≤ (randlineRaw rs maxlen).length) := by
  have hlen : lineLen rs 3 = 3 := by
    unfold lineLen rand_in_range
    norm_num [Nat.mod_one]
  have hraw : randlineRaw rs 3 = [rand_in_range 32 126 (rs 1), 13, 10] := by
    unfold randlineRaw lineBody
    rw [hlen]
    rw [show List.range (3 - 2) = [0] from rfl]
    simp
  refine ⟨⟨rand_in_range 32 126 (rs 1), ?_, rand_in_range_lower 32 126 _,
      rand_in_range_upper 32 126 _ (by omega)⟩,
    lineLen_ge rs maxlen, lineLen_le rs maxlen h3, ?_, randlineRaw_length_eq rs maxlen, ?_⟩
  · unfold randline
    rw [if_neg]
    · exact hraw
    · intro hc
      rw [hlen] at hc
      exact absurd hc.1 (by norm_num)
  · have := lineLen_ge rs maxlen
    omega
  · intro h4
    rw [randlineRaw_length_eq]
    omega

/-- C9 witness: the guarantees of `c9_minimal_length_safety` at
`max_len = 3` and the all-zero random stream. -/
theorem c9_minimal_length_safety_witness :
    (∃ b, randline (fun _ => 0) 3 = [b, 13, 10] ∧ 32 ≤ b ∧ b ≤ 126) ∧
    3 ≤ lineLen (fun _ => 0) 3 ∧
    lineLen (fun _ => 0) 3 ≤ 3 ∧
    lineLen (fun _ => 0) 3 - 2 + 2 = lineLen (fun _ => 0) 3 ∧
    (randlineRaw (fun _ => 0) 3).length = lineLen (fun _ => 0) 3 ∧
    (3 < lineLen (fun _ => 0) 3 → 4 ≤ (randlineRaw (fun _ => 0) 3).length) :=
  c9_minimal_length_safety (fun _ => 0) 3 (by decide)

/-! ## Statistics claims -/

/-- C7: every statistics message (`ProcessedClient`, `LostClient`,
`BytesSent`, `TimeSpent`, `NewClient`, `LogTotals`) leaves each of the five
counters greater than or equal to its previous value, so all fields are
non-decreasing over the process lifetime; `LogTotals` mutates no counter. -/
theorem c7_statistics_monotone (s : Statistics) (m : StatisticsMessage) :
    s.connects ≤ (applyMessage s m).connects ∧
    s.processed_clients ≤ (applyMessage s m).processed_clients ∧
    s.lost_clients ≤ (applyMessage s m).lost_clients ∧
    s.bytes_sent ≤ (applyMessage s m).bytes_sent ∧
    s.time_spent ≤ (applyMessage s m).time_spent ∧
    applyMessage s StatisticsMessage.logTotals = s := by
  cases m <;> simp [applyMessage]

/-! ## Poll-timeout claims -/

/-- C10 counterexample: at a duration of exactly `i32::MAX` whole
milliseconds, `as_c_timeout` saturates to `i32::MAX`, which is *not* strictly
greater than the duration's whole-millisecond count — the claimed strict
inequality fails for such large durations. -/
theorem c10_saturation_counterexample :
    0 ≤ (2147483647000000 : Int) ∧
    wholeMilliseconds 2147483647000000 = 2147483647 ∧
    as_c_timeout (Timeout.duration 2147483647000000) = 2147483647 ∧
    ¬ (wholeMilliseconds 2147483647000000 <
        as_c_timeout (Timeout.duration 2147483647000000)) := by
  refine ⟨by norm_num, ?_, ?_, ?_⟩
  · decide
  · decide
  · decide

/-- C10 (amended): `as_c_timeout` returns `-1` for `Infinite`; for
`Duration(d)` it returns `d`'s whole-millisecond count plus one whenever that
fits in an `i32`, and `i32::MAX` otherwise; hence for every non-negative
duration whose whole-millisecond count is below `i32::MAX`, the returned
poll timeout is strictly greater than `d`'s whole milliseconds (no
early wake-up from a truncated sub-millisecond remainder), while at
`i32::MAX` milliseconds or beyond the result is exactly `i32::MAX`. -/
theorem c10_as_c_timeout_plus_one (d : Int) :
    as_c_timeout Timeout.infinite = -1 ∧
    as_c_timeout (timeoutFrom none) = -1 ∧
    timeoutFrom (some d) = Timeout.duration d ∧
    (0 ≤ d → wholeMilliseconds d < 2147483647 →
      as_c_timeout (Timeout.duration d) = wholeMilliseconds d + 1 ∧
      wholeMilliseconds d < as_c_timeout (Timeout.duration d)) ∧
    (2147483647 ≤ wholeMilliseconds d →
      as_c_timeout (Timeout.duration d) = 2147483647) := by
  refine ⟨rfl, rfl, rfl, ?_, ?_⟩
  · intro hd hlt
    have h0 : 0 ≤ wholeMilliseconds d := Int.tdiv_nonneg hd (by norm_num)
    have heq : as_c_timeout (Timeout.duration d) = wholeMilliseconds d + 1 := by
      simp only [as_c_timeout]
      rw [if_pos ⟨by omega, by omega⟩]
    exact ⟨heq, by omega⟩
  · intro hge
    simp only [as_c_timeout]
    rw [if_neg]
    intro hc
    have := hc.2
    omega

/-- C10 witness: at the default 10-second delay (10^10 nanoseconds) the
returned poll timeout is 10000 + 1 milliseconds, strictly above the
duration's whole-millisecond count. -/
theorem c10_as_c_timeout_plus_one_witness :
    as_c_timeout (Timeout.duration 10000000000) = wholeMilliseconds 10000000000 + 1 ∧
    wholeMilliseconds 10000000000 < as_c_timeout (Timeout.duration 10000000000) :=
  (c10_as_c_timeout_plus_one 10000000000).2.2.2.1 (by norm_num) (by decide)

/-! ## Accept-loop claims -/

/-- C6: admission is strictly non-blocking and back-pressuring.  After a
successful accept, a tuning failure discards the connection without touching
the admission gate; with tuning done, a full gate (`NoPermits`) logs a WARN
carrying the peer address and drops the socket without constructing or
enqueuing a client; in both rejection cases `accept` returns `Ok`, so the
accept loop keeps running. -/
theorem c6_admission_rejections (addr : Nat) (acq : AcquireResult) (enq : Bool) :
    listenerAccept (Except.ok addr) false acq enq =
      ⟨true, false, false, none, false⟩ ∧
    listenerAccept (Except.ok addr) true AcquireResult.noPermits enq =
      ⟨true, false, false, some addr, false⟩ := by
  constructor <;> rfl

/-- C8 counterexample: when `accept` fails with `ECONNABORTED` (a transient
error), the listener still sends `StatisticsMessage::NewClient` — that is,
`stats.connects` *is* incremented on a failed accept, contradicting the
claim that it is incremented only for successfully accepted connections. -/
theorem c8_connects_counterexample :
    (listenerAccept (Except.error AcceptError.econnaborted) true
        AcquireResult.acquired true).newClientSent = true ∧
    (listenerAccept (Except.error AcceptError.econnaborted) true
        AcquireResult.acquired true).isErr = false := by
  decide

/-- C8 (amended): `stats.connects` is incremented exactly once per call of
`Listener::accept` — the `NewClient` message is sent as soon as the accept
returns, whether or not it succeeded; a transient accept failure (`EMFILE`,
`ENFILE`, `ECONNABORTED`, `EINTR`, `ENOBUFS`, `ENOMEM`, `EPROTO`) is logged
and the loop continues accepting, while any other accept error is fatal. -/
theorem c8_connects_per_attempt (res : Except AcceptError Nat) (tuneOk : Bool)
    (acq : AcquireResult) (enq : Bool) :
    (listenerAccept res tuneOk acq enq).newClientSent = true ∧
    (∀ e, res = Except.error e → transientError e = true →
      (listenerAccept res tuneOk acq enq).isErr = false) ∧
    (∀ e, res = Except.error e → transientError e = false →
      (listenerAccept res tuneOk acq enq).isErr = true) := by
  refine ⟨?_, ?_, ?_⟩
  · cases res with
    | ok a => cases tuneOk <;> cases acq <;> cases enq <;> rfl
    | error e => cases h : transientError e <;> simp [listenerAccept, h]
  · intro e he ht
    subst he
    simp [listenerAccept, ht]
  · intro e he ht
    subst he
    simp [listenerAccept, ht]

/-- C8 witness: an `EINTR`-failed accept still counts a connect and keeps
the loop alive. -/
theorem c8_connects_per_attempt_witness :
    (listenerAccept (Except.error AcceptError.eintr) true
        AcquireResult.acquired true).newClientSent = true ∧
    (listenerAccept (Except.error AcceptError.eintr) true
        AcquireResult.acquired true).isErr = false :=
  ⟨(c8_connects_per_attempt (Except.error AcceptError.eintr) true
      AcquireResult.acquired true).1,
    (c8_connects_per_attempt (Except.error AcceptError.eintr) true
      AcquireResult.acquired true).2.1 AcceptError.eintr rfl (by decide)⟩

/-! ## Queue lemmas -/

theorem popMin_eq_none_iff (q : List Client) : popMin q = none ↔ q = [] := by
  cases q with
  | nil => simp [popMin]
  | cons c cs =>
    simp only [popMin]
    cases popMin cs with
    | none => simp
    | some mr =>
      obtain ⟨m, rest⟩ := mr
      by_cases h : c.send_next ≤ m.send_next <;> simp [h]

theorem popMin_perm {q : List Client} {c : Client} {rest : List Client}
    (h : popMin q = some (c, rest)) : q.Perm (c :: rest) := by
  induction q generalizing c rest with
  | nil => simp [popMin] at h
  | cons a cs ih =>
    rw [popMin] at h
    cases hcs : popMin cs with
    | none =>
      rw [hcs] at h
      simp only [Option.some.injEq, Prod.mk.injEq] at h
      obtain ⟨rfl, rfl⟩ := h
      have hnil : cs = [] := (popMin_eq_none_iff cs).mp hcs
      rw [hnil]
    | some mr =>
      obtain ⟨m, r⟩ := mr
      rw [hcs] at h
      dsimp only at h
      by_cases hle : a.send_next ≤ m.send_next
      · rw [if_pos hle] at h
        simp only [Option.some.injEq, Prod.mk.injEq] at h
        obtain ⟨rfl, rfl⟩ := h
        exact List.Perm.refl _
      · rw [if_neg hle] at h
        simp only [Option.some.injEq, Prod.mk.injEq] at h
        obtain ⟨rfl, rfl⟩ := h
        exact ((ih hcs).cons a).trans (List.Perm.swap _ a r)

theorem popMin_mem {q : List Client} {c : Client} {rest : List Client}
    (h : popMin q = some (c, rest)) : c ∈ q :=
  (popMin_perm h).mem_iff.mpr (List.mem_cons_self c rest)

theorem popMin_min {q : List Client} {c : Client} {rest : List Client}
    (h : popMin q = some (c, rest)) : ∀ d ∈ q, c.send_next ≤ d.send_next := by
  induction q generalizing c rest with
  | nil => simp [popMin] at h
  | cons a cs ih =>
    rw [popMin] at h
    cases hcs : popMin cs with
    | none =>
      rw [hcs] at h
      simp only [Option.some.injEq, Prod.mk.injEq] at h
      obtain ⟨rfl, rfl⟩ := h
      have hnil : cs = [] := (popMin_eq_none_iff cs).mp hcs
      subst hnil
      intro d hd
      rw [List.mem_singleton] at hd
      subst hd
      exact le_refl _
    | some mr =>
      obtain ⟨m, r⟩ := mr
      rw [hcs] at h
      dsimp only at h
      by_cases hle : a.send_next ≤ m.send_next
      · rw [if_pos hle] at h
        simp only [Option.some.injEq, Prod.mk.injEq] at h
        obtain ⟨rfl, rfl⟩ := h
        intro d hd
        rcases List.mem_cons.mp hd with rfl | hd
        · exact le_refl _
        · exact le_trans hle (ih hcs d hd)
      · rw [if_neg hle] at h
        simp only [Option.some.injEq, Prod.mk.injEq] at h
        obtain ⟨rfl, rfl⟩ := h
        intro d hd
        rcases List.mem_cons.mp hd with rfl | hd
        · exact le_of_lt (lt_of_not_le hle)
        · exact ih hcs d hd

theorem popMin_length {q : List Client} {c : Client} {rest : List Client}
    (h : popMin q = some (c, rest)) : q.length = rest.length + 1 := by
  have := (popMin_perm h).length_eq
  simpa using this

theorem popMin_countDue (now : Int) {q : List Client} {c : Client} {rest : List Client}
    (h : popMin q = some (c, rest)) :
    countDue now q = countDue now rest + (if c.send_next ≤ now then 1 else 0) := by
  unfold countDue
  rw [(popMin_perm h).countP_eq, List.countP_cons]
  by_cases hd : c.send_next ≤ now <;> simp [hd]

theorem countDue_le_length (now : Int) (q : List Client) : countDue now q ≤ q.length :=
  List.countP_le_length _

/-! Step equations for the `process_queue` loop. -/

theorem processQueueAux_zero (cfg : Config) (now : Int) (send : Nat → Option ErrorKind)
    (rngs : Nat → Nat → Nat) (q : List Client) :
    processQueueAux cfg now send rngs 0 q = ⟨none, 0, 0, [], q⟩ := rfl

theorem step_empty (cfg : Config) (now : Int) (send : Nat → Option ErrorKind)
    (rngs : Nat → Nat → Nat) (fuel : Nat) {q : List Client} (h : popMin q = none) :
    processQueueAux cfg now send rngs (fuel + 1) q = ⟨none, 0, 0, [], []⟩ := by
  rw [processQueueAux, h]

theorem step_late (cfg : Config) (now : Int) (send : Nat → Option ErrorKind)
    (rngs : Nat → Nat → Nat) (fuel : Nat) {q : List Client} {c : Client}
    {rest : List Client} (h : popMin q = some (c, rest)) (hlate : ¬ c.send_next ≤ now) :
    processQueueAux cfg now send rngs (fuel + 1) q =
      ⟨some (c.send_next - now), 0, 0, [], q⟩ := by
  rw [processQueueAux, h]
  simp [hlate]

theorem step_ok (cfg : Config) (now : Int) (send : Nat → Option ErrorKind)
    (rngs : Nat → Nat → Nat) (fuel : Nat) {q : List Client} {c : Client}
    {rest : List Client} {n : Nat} (h : popMin q = some (c, rest))
    (hdue : c.send_next ≤ now)
    (hsend : sendline (rngs 0) cfg.max_line_length (send 0) = Except.ok n) :
    processQueueAux cfg now send rngs (fuel + 1) q =
      tagServiced c (processQueueAux cfg now (shiftStream send) (shiftStream rngs)
        fuel (serviceOk cfg now n c :: rest)) := by
  rw [processQueueAux, h]
  simp [hdue, hsend]

theorem step_err (cfg : Config) (now : Int) (send : Nat → Option ErrorKind)
    (rngs : Nat → Nat → Nat) (fuel : Nat) {q : List Client} {c : Client}
    {rest : List Client} (h : popMin q = some (c, rest)) (hdue : c.send_next ≤ now)
    (hsend : sendline (rngs 0) cfg.max_line_length (send 0) = Except.error ()) :
    processQueueAux cfg now send rngs (fuel + 1) q =
      tagLost c (processQueueAux cfg now (shiftStream send) (shiftStream rngs)
        fuel rest) := by
  rw [processQueueAux, h]
  simp [hdue, hsend]

theorem tagServiced_queue (c : Client) (r : QueueResult) :
    (tagServiced c r).queue = r.queue := rfl

theorem tagServiced_timeout (c : Client) (r : QueueResult) :
    (tagServiced c r).timeout = r.timeout := rfl

theorem tagServiced_serviced (c : Client) (r : QueueResult) :
    (tagServiced c r).serviced = c :: r.serviced := rfl

theorem tagLost_queue (c : Client) (r : QueueResult) :
    (tagLost c r).queue = r.queue := rfl

theorem tagLost_timeout (c : Client) (r : QueueResult) :
    (tagLost c r).timeout = r.timeout := rfl

theorem tagLost_serviced (c : Client) (r : QueueResult) :
    (tagLost c r).serviced = c :: r.serviced := rfl

theorem serviceOk_send_next (cfg : Config) (now : Int) (n : Nat) (c : Client) :
    (serviceOk cfg now n c).send_next = now + cfg.delay := rfl

theorem serviceOk_not_due (cfg : Config) (now : Int) (n : Nat) (c : Client)
    (hdelay : 0 < cfg.delay) : ¬ (serviceOk cfg now n c).send_next ≤ now := by
  rw [serviceOk_send_next]
  omega

theorem countDue_cons (now : Int) (c : Client) (q : List Client) :
    countDue now (c :: q) = countDue now q + (if c.send_next ≤ now then 1 else 0) := by
  by_cases h : c.send_next ≤ now <;> simp [countDue, List.countP_cons, h]

/-- Main loop invariant for the returned timeout: with positive delay and
enough fuel, the loop ends either with an empty queue and no timeout, or with
a non-empty queue whose earliest client determines the timeout. -/
theorem aux_timeout (cfg : Config) (now : Int) (hdelay : 0 < cfg.delay) :
    ∀ (fuel : Nat) (send : Nat → Option ErrorKind) (rngs : Nat → Nat → Nat)
      (q : List Client), countDue now q < fuel →
      ((processQueueAux cfg now send rngs fuel q).queue = [] →
        (processQueueAux cfg now send rngs fuel q).timeout = none) ∧
      ((processQueueAux cfg now send rngs fuel q).queue ≠ [] →
        ∃ c ∈ (processQueueAux cfg now send rngs fuel q).queue,
          (processQueueAux cfg now send rngs fuel q).timeout =
            some (c.send_next - now) ∧
          ∀ d ∈ (processQueueAux cfg now send rngs fuel q).queue,
            c.send_next ≤ d.send_next) := by
  intro fuel
  induction fuel with
  | zero => intro send rngs q hq; exact absurd hq (Nat.not_lt_zero _)
  | succ fuel ih =>
    intro send rngs q hq
    cases hpop : popMin q with
    | none =>
      rw [step_empty cfg now send rngs fuel hpop]
      exact ⟨fun _ => rfl, fun hne => absurd rfl hne⟩
    | some cr =>
      obtain ⟨c, rest⟩ := cr
      by_cases hdue : c.send_next ≤ now
      · have hcount : countDue now rest < fuel := by
          have hc := popMin_countDue now hpop
          rw [if_pos hdue] at hc
          omega
        cases hsend : sendline (rngs 0) cfg.max_line_length (send 0) with
        | ok n =>
          rw [step_ok cfg now send rngs fuel hpop hdue hsend]
          simp only [tagServiced_queue, tagServiced_timeout]
          have hcount' : countDue now (serviceOk cfg now n c :: rest) < fuel := by
            rw [countDue_cons, if_neg (serviceOk_not_due cfg now n c hdelay)]
            omega
          exact ih (shiftStream send) (shiftStream rngs) _ hcount'
        | error e =>
          cases e
          rw [step_err cfg now send rngs fuel hpop hdue hsend]
          simp only [tagLost_queue, tagLost_timeout]
          exact ih (shiftStream send) (shiftStream rngs) rest hcount
      · rw [step_late cfg now send rngs fuel hpop hdue]
        constructor
        · intro hq'
          exact absurd (hq' ▸ popMin_mem hpop) (List.not_mem_nil c)
        · intro _
          exact ⟨c, popMin_mem hpop, rfl, popMin_min hpop⟩

/-- Every client in the serviced trace was due when it was written to. -/
theorem aux_serviced_due (cfg : Config) (now : Int) :
    ∀ (fuel : Nat) (send : Nat → Option ErrorKind) (rngs : Nat → Nat → Nat)
      (q : List Client),
      ∀ c ∈ (processQueueAux cfg now send rngs fuel q).serviced, c.send_next ≤ now := by
  intro fuel
  induction fuel with
  | zero =>
    intro send rngs q c hc
    exact absurd hc (List.not_mem_nil c)
  | succ fuel ih =>
    intro send rngs q c hc
    cases hpop : popMin q with
    | none =>
      rw [step_empty cfg now send rngs fuel hpop] at hc
      exact absurd hc (List.not_mem_nil c)
    | some cr =>
      obtain ⟨a, rest⟩ := cr
      by_cases hdue : a.send_next ≤ now
      · cases hsend : sendline (rngs 0) cfg.max_line_length (send 0) with
        | ok n =>
          rw [step_ok cfg now send rngs fuel hpop hdue hsend,
            tagServiced_serviced] at hc
          rcases List.mem_cons.mp hc with rfl | hc
          · exact hdue
          · exact ih (shiftStream send) (shiftStream rngs) _ c hc
        | error e =>
          cases e
          rw [step_err cfg now send rngs fuel hpop hdue hsend, tagLost_serviced] at hc
          rcases List.mem_cons.mp hc with rfl | hc
          · exact hdue
          · exact ih (shiftStream send) (shiftStream rngs) rest c hc
      · rw [step_late cfg now send rngs fuel hpop hdue] at hc
        exact absurd hc (List.not_mem_nil c)

/-- Every client left in the queue traces back to an input client with the
same address and a send time that has not decreased. -/
theorem aux_trace (cfg : Config) (now : Int) (hdelay : 0 ≤ cfg.delay) :
    ∀ (fuel : Nat) (send : Nat → Option ErrorKind) (rngs : Nat → Nat → Nat)
      (q : List Client),
      ∀ c' ∈ (processQueueAux cfg now send rngs fuel q).queue,
        ∃ c ∈ q, c.addr = c'.addr ∧ c.send_next ≤ c'.send_next := by
  intro fuel
  induction fuel with
  | zero =>
    intro send rngs q c' hc'
    rw [processQueueAux_zero] at hc'
    exact ⟨c', hc', rfl, le_refl _⟩
  | succ fuel ih =>
    intro send rngs q c' hc'
    cases hpop : popMin q with
    | none =>
      rw [step_empty cfg now send rngs fuel hpop] at hc'
      exact absurd hc' (List.not_mem_nil c')
    | some cr =>
      obtain ⟨c, rest⟩ := cr
      by_cases hdue : c.send_next ≤ now
      · cases hsend : sendline (rngs 0) cfg.max_line_length (send 0) with
        | ok n =>
          rw [step_ok cfg now send rngs fuel hpop hdue hsend, tagServiced_queue] at hc'
          obtain ⟨b, hb, hba, hbs⟩ := ih (shiftStream send) (shiftStream rngs) _ c' hc'
          rcases List.mem_cons.mp hb with rfl | hb
          · refine ⟨c, popMin_mem hpop, hba, ?_⟩
            have : c.send_next ≤ (serviceOk cfg now n c).send_next := by
              rw [serviceOk_send_next]
              omega
            exact le_trans this hbs
          · refine ⟨b, ?_, hba, hbs⟩
            exact (popMin_perm hpop).mem_iff.mpr (List.mem_cons_of_mem c hb)
        | error e =>
          cases e
          rw [step_err cfg now send rngs fuel hpop hdue hsend, tagLost_queue] at hc'
          obtain ⟨b, hb, hba, hbs⟩ := ih (shiftStream send) (shiftStream rngs) rest c' hc'
          refine ⟨b, ?_, hba, hbs⟩
          exact (popMin_perm hpop).mem_iff.mpr (List.mem_cons_of_mem c hb)
      · rw [step_late cfg now send rngs fuel hpop hdue] at hc'
        exact ⟨c', hc', rfl, le_refl _⟩

/-- C3: `sendline` returns `Ok(n)` with `n` the full length of the generated
line exactly on a successful whole-line write, `Ok(0)` on a would-block
error (no error, client kept), and `Err` on every other write error; the
queue loop credits exactly the returned `n` to the serviced client's
`bytes_sent`, so `bytes_sent` only counts bytes successfully written. -/
theorem c3_sendline_accounting (rs : Nat → Nat) (maxlen : Nat) (cfg : Config)
    (now : Int) (send : Nat → Option ErrorKind) (rngs : Nat → Nat → Nat)
    (q : List Client) :
    sendline rs maxlen none = Except.ok (randline rs maxlen).length ∧
    sendline rs maxlen (some ErrorKind.wouldBlock) = Except.ok 0 ∧
    (∀ e, e ≠ ErrorKind.wouldBlock → sendline rs maxlen (some e) = Except.error ()) ∧
    (∀ c rest n, popMin q = some (c, rest) → c.send_next ≤ now →
      sendline (rngs 0) cfg.max_line_length (send 0) = Except.ok n →
      processQueue cfg now send rngs q =
        tagServiced c (processQueueAux cfg now (shiftStream send) (shiftStream rngs)
          q.length (serviceOk cfg now n c :: rest)) ∧
      (serviceOk cfg now n c).bytes_sent = c.bytes_sent + n) := by
  refine ⟨rfl, rfl, ?_, ?_⟩
  · intro e he
    cases e with
    | wouldBlock => exact absurd rfl he
    | connectionReset => rfl
    | timedOut => rfl
    | brokenPipe => rfl
    | notConnected => rfl
    | otherKind => rfl
  · intro c rest n hpop hdue hsend
    constructor
    · unfold processQueue
      exact step_ok cfg now send rngs q.length hpop hdue hsend
    · rfl

/-- C3 witness: servicing the single due client of a one-element queue with
a successful write of the 3-byte line generated from the all-zero stream
adds exactly those 3 bytes to its `bytes_sent` (5 + 3). -/
theorem c3_sendline_accounting_witness :
    (serviceOk ⟨2223, 7, 32, 64⟩ 10 3 ⟨1, 0, 5, 0⟩).bytes_sent = 5 + 3 :=
  ((c3_sendline_accounting (fun _ => 0) 32 ⟨2223, 7, 32, 64⟩ 10 (fun _ => none)
      (fun _ _ => 0) [⟨1, 0, 5, 0⟩]).2.2.2 ⟨1, 0, 5, 0⟩ [] 3 rfl (by decide) rfl).2

/-- C4: in the single-task queue form, among due clients the one with the
smallest `send_next` is serviced first (it is in fact minimal over the whole
queue); when processing stops the returned timeout is `None` exactly when
the queue was emptied and otherwise equals the earliest remaining client's
`send_next - now`; and a broken write removes exactly the failing client —
the run on `q` equals the run on the untouched remainder `rest` (with the
oracles advanced one step) plus the accounting of the dropped client. -/
theorem c4_queue_scheduling (cfg : Config) (now : Int) (send : Nat → Option ErrorKind)
    (rngs : Nat → Nat → Nat) (q : List Client) (hdelay : 0 < cfg.delay) :
    ((∃ c₀ ∈ q, c₀.send_next ≤ now) →
      ∃ c, (processQueue cfg now send rngs q).serviced.head? = some c ∧
        c.send_next ≤ now ∧ ∀ d ∈ q, c.send_next ≤ d.send_next) ∧
    ((processQueue cfg now send rngs q).queue = [] →
      (processQueue cfg now send rngs q).timeout = none) ∧
    ((processQueue cfg now send rngs q).queue ≠ [] →
      ∃ c ∈ (processQueue cfg now send rngs q).queue,
        (processQueue cfg now send rngs q).timeout = some (c.send_next - now) ∧
        ∀ d ∈ (processQueue cfg now send rngs q).queue, c.send_next ≤ d.send_next) ∧
    (∀ c rest, popMin q = some (c, rest) → c.send_next ≤ now →
      sendline (rngs 0) cfg.max_line_length (send 0) = Except.error () →
      q.Perm (c :: rest) ∧
      processQueue cfg now send rngs q =
        tagLost c (processQueue cfg now (shiftStream send) (shiftStream rngs) rest)) := by
  have ht := aux_timeout cfg now hdelay (q.length + 1) send rngs q
    (by have := countDue_le_length now q; omega)
  refine ⟨?_, ht.1, ht.2, ?_⟩
  · rintro ⟨c₀, hc₀, hdue₀⟩
    cases hpop : popMin q with
    | none =>
      have hnil : q = [] := (popMin_eq_none_iff q).mp hpop
      rw [hnil] at hc₀
      exact absurd hc₀ (List.not_mem_nil c₀)
    | some cr =>
      obtain ⟨c, rest⟩ := cr
      have hdue : c.send_next ≤ now := le_trans (popMin_min hpop c₀ hc₀) hdue₀
      refine ⟨c, ?_, hdue, popMin_min hpop⟩
      unfold processQueue
      cases hsend : sendline (rngs 0) cfg.max_line_length (send 0) with
      | ok n =>
        rw [step_ok cfg now send rngs q.length hpop hdue hsend, tagServiced_serviced]
        rfl
      | error e =>
        cases e
        rw [step_err cfg now send rngs q.length hpop hdue hsend, tagLost_serviced]
        rfl
  · intro c rest hpop hdue hsend
    refine ⟨popMin_perm hpop, ?_⟩
    unfold processQueue
    rw [step_err cfg now send rngs q.length hpop hdue hsend, popMin_length hpop]

/-- C4 witness: with delay 5 at instant 100 on a queue holding a due client
(send 50) and a not-yet-due one (send 200), processing leaves a non-empty
queue and the returned timeout is the earliest remaining client's
`send_next - now`. -/
theorem c4_queue_scheduling_witness :
    ∃ c ∈ (processQueue ⟨2223, 5, 32, 64⟩ 100 (fun _ => none) (fun _ _ => 0)
        [⟨1, 50, 0, 0⟩, ⟨2, 200, 0, 0⟩]).queue,
      (processQueue ⟨2223, 5, 32, 64⟩ 100 (fun _ => none) (fun _ _ => 0)
        [⟨1, 50, 0, 0⟩, ⟨2, 200, 0, 0⟩]).timeout = some (c.send_next - 100) ∧
      ∀ d ∈ (processQueue ⟨2223, 5, 32, 64⟩ 100 (fun _ => none) (fun _ _ => 0)
        [⟨1, 50, 0, 0⟩, ⟨2, 200, 0, 0⟩]).queue, c.send_next ≤ d.send_next :=
  (c4_queue_scheduling ⟨2223, 5, 32, 64⟩ 100 (fun _ => none) (fun _ _ => 0)
    [⟨1, 50, 0, 0⟩, ⟨2, 200, 0, 0⟩] (by norm_num)).2.2.1 (by decide)

/-- C5: `send_next` is monotonically non-decreasing over a client's
lifetime: a client is written to only when its `send_next` has passed
(every serviced snapshot is due), every client still in the queue traces to
an input client with the same address and a `send_next` that has not
decreased, and a successful (or would-block) write re-arms the client to
`now + delay` — not `send_next + delay` — which is at least the old value. -/
theorem c5_send_next_monotone (cfg : Config) (now : Int) (send : Nat → Option ErrorKind)
    (rngs : Nat → Nat → Nat) (q : List Client) (hdelay : 0 < cfg.delay) :
    (∀ c ∈ (processQueue cfg now send rngs q).serviced, c.send_next ≤ now) ∧
    (∀ c' ∈ (processQueue cfg now send rngs q).queue,
      ∃ c ∈ q, c.addr = c'.addr ∧ c.send_next ≤ c'.send_next) ∧
    (∀ c rest n, popMin q = some (c, rest) → c.send_next ≤ now →
      sendline (rngs 0) cfg.max_line_length (send 0) = Except.ok n →
      (serviceOk cfg now n c).send_next = now + cfg.delay ∧
      c.send_next ≤ (serviceOk cfg now n c).send_next ∧
      processQueue cfg now send rngs q =
        tagServiced c (processQueueAux cfg now (shiftStream send) (shiftStream rngs)
          q.length (serviceOk cfg now n c :: rest))) := by
  refine ⟨aux_serviced_due cfg now (q.length + 1) send rngs q,
    aux_trace cfg now (le_of_lt hdelay) (q.length + 1) send rngs q, ?_⟩
  intro c rest n hpop hdue hsend
  refine ⟨rfl, ?_, ?_⟩
  · rw [serviceOk_send_next]
    omega
  · unfold processQueue
    exact step_ok cfg now send rngs q.length hpop hdue hsend

/-- C5 witness: re-arming the due client (send 50) serviced at instant 100
with delay 5 sets `send_next` to 100 + 5, which does not regress. -/
theorem c5_send_next_monotone_witness :
    (serviceOk ⟨2223, 5, 32, 64⟩ 100 3 ⟨1, 50, 0, 0⟩).send_next = 100 + 5 ∧
    (⟨1, 50, 0, 0⟩ : Client).send_next ≤
      (serviceOk ⟨2223, 5, 32, 64⟩ 100 3 ⟨1, 50, 0, 0⟩).send_next :=
  ⟨((c5_send_next_monotone ⟨2223, 5, 32, 64⟩ 100 (fun _ => none) (fun _ _ => 0)
      [⟨1, 50, 0, 0⟩, ⟨2, 200, 0, 0⟩] (by norm_num)).2.2 ⟨1, 50, 0, 0⟩ [⟨2, 200, 0, 0⟩] 3
      rfl (by decide) rfl).1,
    ((c5_send_next_monotone ⟨2223, 5, 32, 64⟩ 100 (fun _ => none) (fun _ _ => 0)
      [⟨1, 50, 0, 0⟩, ⟨2, 200, 0, 0⟩] (by norm_num)).2.2 ⟨1, 50, 0, 0⟩ [⟨2, 200, 0, 0⟩] 3
      rfl (by decide) rfl).2.1⟩

end EndlessSsh
